import Mathlib

/-!
Shallow embedding of the Vocabulary State & Session Engine
(`src/unnamed/part_000` type declarations, `src/services/geminiService.ts`
App component, `src/components/Flashcard.tsx`, `src/components/FileUpload.tsx`).

JavaScript numbers that hold epoch-millisecond timestamps are modelled as
`Int`; counters that only ever increment from 0 are modelled as `Nat`.
`term.toLowerCase()` is modelled as a character-wise `Char.toLower` map
(extensionally `String.toLower`, whose `mapAux` the kernel cannot unfold).
-/

namespace VocabBoost

/-- `WordItem` from the type declarations.  The optional source field
`example` is rendered as `exampleSentence` because `example` is a Lean
keyword. -/
structure WordItem where
  id : String
  term : String
  definition : Option String := none
  phonetic : Option String := none
  exampleSentence : Option String := none
  masteryLevel : Int
  lastMemorizedAt : Option Int := none
deriving Repr, DecidableEq

/-- `StudySet.type` provenance tag. -/
inductive SetType where
  | IMAGE | DOC | EXCEL | TEXT | DEMO
deriving Repr, DecidableEq

/-- `StudySet` from the type declarations. -/
structure StudySet where
  id : String
  name : String
  wordCount : Int
  words : List WordItem
  type : SetType
  createdAt : Int
deriving Repr, DecidableEq

/-- `QuizQuestion` from the type declarations. -/
structure QuizQuestion where
  word : String
  correctAnswer : String
  options : List String
  context : Option String := none
deriving Repr, DecidableEq

/-- `AppView` enum. -/
inductive AppView where
  | LANDING | LEARNING | SUMMARY | TESTING
deriving Repr, DecidableEq

/-- `LearningSessionStats` from the type declarations. -/
structure LearningSessionStats where
  total : Nat
  correct : Nat
  incorrect : Nat
  wordCount : Nat
  startTime : Int
deriving Repr, DecidableEq

/-- The React state of the `App` component that the engine claims are
about (error/loading message state is presentation-only and omitted). -/
structure AppState where
  view : AppView
  wordList : List WordItem
  currentWordIndex : Nat
  stats : LearningSessionStats
  isProcessing : Bool
  missedWords : List WordItem
  historyWords : List WordItem
  library : List StudySet
  quizQuestions : List QuizQuestion
  currentQuizIndex : Nat
  lastIncorrectInSession : List WordItem
deriving Repr, DecidableEq

/-- `s.toLowerCase()`: lower-case every character. -/
def jsToLower (s : String) : String := String.mk (s.data.map Char.toLower)

/-- The case-folded dedup key `w.term.toLowerCase()` used throughout the
App component. -/
def termKey (w : WordItem) : String := jsToLower w.term

/-- `saveToLibrary` (App component):
`[set, ...library.filter(item => item.name !== set.name)].slice(0, 20)`. -/
def saveToLibrary (library : List StudySet) (set : StudySet) : List StudySet :=
  (set :: library.filter (fun item => item.name ≠ set.name)).take 20

/-- `deleteFromLibrary` (App component): `library.filter(item => item.id !== id)`. -/
def deleteFromLibrary (library : List StudySet) (id : String) : List StudySet :=
  library.filter (fun item => item.id ≠ id)

/-- Model of `Array.from(new Set(l))` for a list of strings: a JS `Set`
iterates its elements in insertion order, keeping the first occurrence of
each duplicate, so the result is the distinct elements of `l` in order of
first occurrence. -/
def jsSetFrom : List String → List String
  | [] => []
  | s :: l => s :: (jsSetFrom l).filter (fun t => t ≠ s)

/-- The deduplication at the top of `startLearning`:
`Array.from(new Set(words.map(w => w.term.toLowerCase())))
  .map(term => words.find(w => w.term.toLowerCase() === term)!)`.
The non-null assertion on `find` is rendered by `filterMap`. -/
def startLearningDedup (words : List WordItem) : List WordItem :=
  (jsSetFrom (words.map termKey)).filterMap
    (fun term => words.find? (fun w => termKey w = term))

/-- First-occurrence deduplication by case-folded term, the specified
"first wins" policy; proved below to coincide with `startLearningDedup`. -/
def dedupKeepFirst : List WordItem → List WordItem
  | [] => []
  | w :: ws => w :: (dedupKeepFirst ws).filter (fun v => termKey v ≠ termKey w)

/-- `startLearning` (App component): dedup the input, reset the index,
the per-session miss list and the stats, and enter the LEARNING view. -/
def startLearning (s : AppState) (words : List WordItem) (now : Int) : AppState :=
  let uniqueWords := startLearningDedup words
  { s with
    wordList := uniqueWords
    currentWordIndex := 0
    lastIncorrectInSession := []
    stats := { total := uniqueWords.length, correct := 0, incorrect := 0,
               wordCount := uniqueWords.length, startTime := now }
    view := .LEARNING }

/-- The success branch of `handleCardResult` restricted to the two durable
collections (lines stamping `lastMemorizedAt`, rebuilding `History` and
filtering `MissedSet`):
`const updatedWord = { ...currentWord, lastMemorizedAt: Date.now() };`
`[updatedWord, ...historyWords.filter(w => w.term.toLowerCase() !== currentWord.term.toLowerCase())].slice(0, 500)`
`missedWords.filter(w => w.term.toLowerCase() !== currentWord.term.toLowerCase())`. -/
def recordCorrect (history missed : List WordItem) (w : WordItem) (now : Int) :
    List WordItem × List WordItem :=
  let updatedWord := { w with lastMemorizedAt := some now }
  ((updatedWord :: history.filter (fun v => termKey v ≠ termKey w)).take 500,
   missed.filter (fun v => termKey v ≠ termKey w))

/-- The `MissedSet` upsert shared by the failure branches of
`handleCardResult` and `handleQuizAnswer`:
`if (!missedWords.some(w => w.term.toLowerCase() === word.term.toLowerCase()))
   saveMissed([...missedWords, word])`. -/
def recordIncorrect (missed : List WordItem) (w : WordItem) : List WordItem :=
  if missed.any (fun v => termKey v = termKey w) then missed else missed ++ [w]

/-- The state commit performed inside `handleCardResult`'s timeout callback
(the answer for the current flashcard), ending with `setIsProcessing(false)`. -/
def applyCardResult (s : AppState) (success : Bool) (now : Int) : AppState :=
  match s.wordList.get? s.currentWordIndex with
  | none => s
  | some currentWord =>
    let s1 :=
      if success then
        let r := recordCorrect s.historyWords s.missedWords currentWord now
        { s with
          stats := { s.stats with correct := s.stats.correct + 1 }
          historyWords := r.1
          missedWords := r.2 }
      else
        { s with
          stats := { s.stats with incorrect := s.stats.incorrect + 1 }
          lastIncorrectInSession := s.lastIncorrectInSession ++ [currentWord]
          missedWords := recordIncorrect s.missedWords currentWord }
    if s.currentWordIndex < s.wordList.length - 1 then
      { s1 with currentWordIndex := s.currentWordIndex + 1, isProcessing := false }
    else
      { s1 with view := .SUMMARY, isProcessing := false }

/-- A learner's answer event in a learning session.  While an answer is
being committed `isProcessing` is true and both answer buttons of
`Flashcard.tsx` carry `disabled = isProcessing`, so the click event is
dropped; otherwise `handleCardResult` runs and commits `applyCardResult`. -/
def learningAnswer (s : AppState) (success : Bool) (now : Int) : AppState :=
  if s.isProcessing then s else applyCardResult s success now

/-- `handleQuizAnswer` (App component).  The leading `if (isProcessing) return`
guard drops re-entrant events; the commit happens in the timeout callback. -/
def handleQuizAnswer (s : AppState) (isCorrect : Bool) : AppState :=
  if s.isProcessing then s
  else
    match s.quizQuestions.get? s.currentQuizIndex with
    | none => s
    | some currentQuestion =>
      let originalWord :=
        s.historyWords.find? (fun w => termKey w = jsToLower currentQuestion.word)
      let s1 :=
        if isCorrect then
          { s with stats := { s.stats with correct := s.stats.correct + 1 } }
        else
          let s2 := { s with stats := { s.stats with incorrect := s.stats.incorrect + 1 } }
          match originalWord with
          | none => s2
          | some ow =>
            { s2 with
              lastIncorrectInSession := s2.lastIncorrectInSession ++ [ow]
              missedWords := recordIncorrect s2.missedWords ow }
      if s.currentQuizIndex < s.quizQuestions.length - 1 then
        { s1 with currentQuizIndex := s.currentQuizIndex + 1, isProcessing := false }
      else
        { s1 with view := .SUMMARY, isProcessing := false }

/-- `7 * 24 * 60 * 60 * 1000`, the recency window of `startWeeklyTest`
and of the landing page's `canTest` computation. -/
def oneWeekMs : Int := 7 * 24 * 60 * 60 * 1000

/-- `historyWords.filter(w => (w.lastMemorizedAt || 0) > oneWeekAgo)` where
`oneWeekAgo = Date.now() - 7 * 24 * 60 * 60 * 1000`. -/
def recentWords (now : Int) (history : List WordItem) : List WordItem :=
  history.filter (fun w => w.lastMemorizedAt.getD 0 > now - oneWeekMs)

/-- The eligibility predicate: `canTest = recentCount >= 3` on the landing
page, and the negation of `recentWords.length < 3` guarding `startWeeklyTest`. -/
def isEligible (now : Int) (history : List WordItem) : Bool :=
  3 ≤ (recentWords now history).length

/-- The sampling step of `startWeeklyTest`:
`[...recentWords].sort(() => 0.5 - Math.random()).slice(0, 10)`.
The comparison sort with a random comparator produces some engine-dependent
permutation of `recentWords`; the permutation actually drawn is passed in
as `shuffled` (theorems quantify over every permutation), and `slice(0, 10)`
is `take 10`. -/
def sampleForQuiz (shuffled : List WordItem) : List WordItem :=
  shuffled.take 10

/-- `startWeeklyTest` (App component).  `shuffled` is the permutation drawn
by the random shuffle and `response` the reply of the external
`generateQuiz` call.  The returned option is the list of terms forwarded to
`generateQuiz`: `none` means the quiz-generation path was never invoked
(the early `return` after the `recentWords.length < 3` check). -/
def startWeeklyTest (s : AppState) (now : Int) (shuffled : List WordItem)
    (response : List QuizQuestion) : AppState × Option (List String) :=
  let recent := recentWords now s.historyWords
  if recent.length < 3 then (s, none)
  else
    let request := (sampleForQuiz shuffled).map (fun w => w.term)
    if response.length > 0 then
      ({ s with
          quizQuestions := response
          currentQuizIndex := 0
          stats := { total := response.length, correct := 0, incorrect := 0,
                     wordCount := response.length, startTime := now }
          lastIncorrectInSession := []
          view := .TESTING }, some request)
    else (s, some request)

/-- `DEMO_WORDS` (App component). -/
def DEMO_WORDS : List WordItem :=
  [ { id := "1", term := "Environment", masteryLevel := 0 },
    { id := "2", term := "Challenge", masteryLevel := 0 },
    { id := "3", term := "Technology", masteryLevel := 0 },
    { id := "4", term := "Experience", masteryLevel := 0 },
    { id := "5", term := "Government", masteryLevel := 0 },
    { id := "6", term := "Society", masteryLevel := 0 },
    { id := "7", term := "Benefit", masteryLevel := 0 },
    { id := "8", term := "Influence", masteryLevel := 0 } ]

/-- `startDemoLearning` (App component): overwrite `History` with the first
four demo words stamped `lastMemorizedAt = Date.now()`, save the demo study
set into the library, and start a learning session on all eight demo words. -/
def startDemoLearning (s : AppState) (now : Int) : AppState :=
  let mockHistory := (DEMO_WORDS.take 4).map (fun w => { w with lastMemorizedAt := some now })
  let demoSet : StudySet :=
    { id := "demo-set", name := "系统演示词库", wordCount := DEMO_WORDS.length,
      words := DEMO_WORDS, type := .DEMO, createdAt := now }
  startLearning
    { s with historyWords := mockHistory, library := saveToLibrary s.library demoSet }
    DEMO_WORDS now

/-- The uniqueness invariant of the spec: no two items of a collection have
the same case-folded `term`. -/
abbrev keysNodup (l : List WordItem) : Prop := (l.map termKey).Nodup

/-- The invariant over the three collections the engine operations touch. -/
abbrev goodState (s : AppState) : Prop :=
  keysNodup s.historyWords ∧ keysNodup s.missedWords ∧ keysNodup s.wordList

/-! Concrete fixtures used by witnesses and counterexamples. -/

/-- A bare `WordItem` as the file parsers produce one from a raw term. -/
def mkWord (id term : String) : WordItem :=
  { id := id, term := term, masteryLevel := 0 }

def appleW : WordItem := mkWord "a1" "apple"

def appleW2 : WordItem := mkWord "a2" "Apple"

def bananaW : WordItem := mkWord "b1" "banana"

/-- A surviving input item whose `masteryLevel` is not 0 (e.g. a word
re-opened from a stored library set). -/
def masteryWord : WordItem := { id := "m1", term := "apple", masteryLevel := 2 }

def stampNow (w : WordItem) (now : Int) : WordItem :=
  { w with lastMemorizedAt := some now }

def twoRecent (now : Int) : List WordItem :=
  [stampNow (mkWord "r1" "alpha") now, stampNow (mkWord "r2" "beta") now]

def threeRecent (now : Int) : List WordItem :=
  twoRecent now ++ [stampNow (mkWord "r3" "gamma") now]

def emptyStats : LearningSessionStats :=
  { total := 0, correct := 0, incorrect := 0, wordCount := 0, startTime := 0 }

def initialState : AppState :=
  { view := .LANDING, wordList := [], currentWordIndex := 0, stats := emptyStats,
    isProcessing := false, missedWords := [], historyWords := [], library := [],
    quizQuestions := [], currentQuizIndex := 0, lastIncorrectInSession := [] }

/-- A state in the middle of committing an answer (`isProcessing` held). -/
def procState : AppState := { initialState with isProcessing := true }

/-- A history entry for the term "Apple", memorized at time 0. -/
def appleStamped : WordItem :=
  { id := "h1", term := "Apple", masteryLevel := 0, lastMemorizedAt := some 0 }

def appleQuestion : QuizQuestion :=
  { word := "Apple", correctAnswer := "苹果", options := ["苹果", "香蕉", "桃子", "梨子"] }

/-- A live quiz session whose MissedSet already holds "apple" and whose
current question asks about "Apple". -/
def c1State : AppState :=
  { view := .TESTING, wordList := [], currentWordIndex := 0,
    stats := { total := 1, correct := 0, incorrect := 0, wordCount := 1, startTime := 0 },
    isProcessing := false, missedWords := [appleW], historyWords := [appleStamped],
    library := [], quizQuestions := [appleQuestion], currentQuizIndex := 0,
    lastIncorrectInSession := [] }

/-- A live learning session on the single word "apple", which is also in
MissedSet. -/
def learnState : AppState :=
  { view := .LEARNING, wordList := [appleW], currentWordIndex := 0,
    stats := { total := 1, correct := 0, incorrect := 0, wordCount := 1, startTime := 0 },
    isProcessing := false, missedWords := [appleW], historyWords := [],
    library := [], quizQuestions := [], currentQuizIndex := 0,
    lastIncorrectInSession := [] }

/-- An empty study set with the given name. -/
def namedSet (n : String) : StudySet :=
  { id := n, name := n, wordCount := 0, words := [], type := .TEXT, createdAt := 0 }

/-- Twenty-one study sets with pairwise distinct names. -/
def sets21 : List StudySet :=
  [ namedSet "n01", namedSet "n02", namedSet "n03", namedSet "n04", namedSet "n05",
    namedSet "n06", namedSet "n07", namedSet "n08", namedSet "n09", namedSet "n10",
    namedSet "n11", namedSet "n12", namedSet "n13", namedSet "n14", namedSet "n15",
    namedSet "n16", namedSet "n17", namedSet "n18", namedSet "n19", namedSet "n20",
    namedSet "n21" ]

/-!
## Helper lemmas
-/

theorem filterMap_filter_comm {α β : Type} (f : α → Option β) (p : α → Bool) (q : β → Bool) :
    ∀ l : List α, (∀ t ∈ l, ∀ v, f t = some v → q v = p t) →
      (l.filter p).filterMap f = (l.filterMap f).filter q := by
  intro l
  induction l with
  | nil => intro _; rfl
  | cons t l ih =>
    intro H
    have ht := H t (List.mem_cons_self t l)
    have H' : ∀ u ∈ l, ∀ v, f u = some v → q v = p u :=
      fun u hu => H u (List.mem_cons_of_mem t hu)
    cases hf : f t with
    | none =>
      cases hp : p t <;>
        simp [List.filter_cons, hp, List.filterMap_cons, hf, ih H']
    | some v =>
      have hq : q v = p t := ht v hf
      cases hp : p t with
      | true =>
        rw [hp] at hq
        simp [List.filter_cons, hp, List.filterMap_cons, hf, ih H', hq]
      | false =>
        rw [hp] at hq
        simp [List.filter_cons, hp, List.filterMap_cons, hf, ih H', hq]

theorem startLearningDedup_eq (words : List WordItem) :
    startLearningDedup words = dedupKeepFirst words := by
  induction words with
  | nil => rfl
  | cons w ws ih =>
    have hhead : (w :: ws).find? (fun u => termKey u = termKey w) = some w :=
      List.find?_cons_of_pos _ (by simp)
    have step : startLearningDedup (w :: ws)
        = w :: ((jsSetFrom (ws.map termKey)).filter (fun t => t ≠ termKey w)).filterMap
            (fun term => (w :: ws).find? (fun u => termKey u = term)) := by
      simp [startLearningDedup, jsSetFrom, List.filterMap_cons, hhead]
    have hcongr : ((jsSetFrom (ws.map termKey)).filter (fun t => t ≠ termKey w)).filterMap
            (fun term => (w :: ws).find? (fun u => termKey u = term))
        = ((jsSetFrom (ws.map termKey)).filter (fun t => t ≠ termKey w)).filterMap
            (fun term => ws.find? (fun u => termKey u = term)) := by
      apply List.filterMap_congr
      intro t htmem
      have hne : t ≠ termKey w := by
        have := (List.mem_filter.mp htmem).2
        simpa using this
      exact List.find?_cons_of_neg _ (by
        simp only [decide_eq_true_eq]
        exact fun h => hne h.symm)
    have hcomm : ((jsSetFrom (ws.map termKey)).filter (fun t => t ≠ termKey w)).filterMap
            (fun term => ws.find? (fun u => termKey u = term))
        = (startLearningDedup ws).filter (fun v => termKey v ≠ termKey w) := by
      rw [startLearningDedup]
      apply filterMap_filter_comm
      intro t _ v hv
      have hkey : termKey v = t := by
        have := List.find?_some hv
        simpa using this
      rw [hkey]
    rw [step, hcongr, hcomm, ih]
    rfl

theorem dedupKeepFirst_sublist : ∀ l : List WordItem, List.Sublist (dedupKeepFirst l) l := by
  intro l
  induction l with
  | nil => exact List.Sublist.refl _
  | cons w ws ih =>
    exact List.Sublist.cons₂ w ((List.filter_sublist _).trans ih)

theorem dedupKeepFirst_keys_nodup : ∀ l : List WordItem, ((dedupKeepFirst l).map termKey).Nodup := by
  intro l
  induction l with
  | nil => simp [dedupKeepFirst]
  | cons w ws ih =>
    simp only [dedupKeepFirst, List.map_cons, List.nodup_cons]
    refine ⟨?_, ?_⟩
    · intro hmem
      obtain ⟨v, hv, hkey⟩ := List.mem_map.mp hmem
      have hne : termKey v ≠ termKey w := by
        have := (List.mem_filter.mp hv).2
        simpa using this
      exact hne hkey
    · have hsub : List.Sublist ((dedupKeepFirst ws).filter (fun v => termKey v ≠ termKey w))
          (dedupKeepFirst ws) := List.filter_sublist _
      exact (hsub.map termKey).nodup ih

theorem dedupKeepFirst_covers :
    ∀ l : List WordItem, ∀ u ∈ l, ∃ v ∈ dedupKeepFirst l, termKey v = termKey u := by
  intro l
  induction l with
  | nil => simp
  | cons w ws ih =>
    intro u hu
    rcases List.mem_cons.mp hu with h | h
    · exact ⟨w, List.mem_cons_self _ _, by rw [h]⟩
    · obtain ⟨v, hv, hk⟩ := ih u h
      by_cases hvw : termKey v = termKey w
      · exact ⟨w, List.mem_cons_self _ _, by rw [← hvw, hk]⟩
      · refine ⟨v, List.mem_cons.mpr (Or.inr ?_), hk⟩
        exact List.mem_filter.mpr ⟨hv, by simpa using hvw⟩

theorem dedupKeepFirst_first_occurrence :
    ∀ l : List WordItem, ∀ v ∈ dedupKeepFirst l,
      l.find? (fun u => termKey u = termKey v) = some v := by
  intro l
  induction l with
  | nil => simp [dedupKeepFirst]
  | cons w ws ih =>
    intro v hv
    rcases List.mem_cons.mp hv with h | h
    · subst h
      exact List.find?_cons_of_pos _ (by simp)
    · have hfil := List.mem_filter.mp h
      have hne : termKey v ≠ termKey w := by simpa using hfil.2
      rw [List.find?_cons_of_neg _ (by
        simp only [decide_eq_true_eq]
        exact fun hcon => hne hcon.symm)]
      exact ih v hfil.1

theorem keysNodup_filter (l : List WordItem) (p : WordItem → Bool) (h : keysNodup l) :
    keysNodup (l.filter p) := by
  exact (((List.filter_sublist l).map termKey).nodup h : _)

theorem keysNodup_take (l : List WordItem) (n : Nat) (h : keysNodup l) :
    keysNodup (l.take n) := by
  exact (((List.take_sublist n l).map termKey).nodup h : _)

theorem recordCorrect_keysNodup (history missed : List WordItem) (w : WordItem) (now : Int)
    (hh : keysNodup history) (hm : keysNodup missed) :
    keysNodup (recordCorrect history missed w now).1
    ∧ keysNodup (recordCorrect history missed w now).2 := by
  constructor
  · apply keysNodup_take
    simp only [keysNodup, List.map_cons, List.nodup_cons]
    refine ⟨?_, keysNodup_filter _ _ hh⟩
    intro hmem
    obtain ⟨v, hv, hkey⟩ := List.mem_map.mp hmem
    have hne : termKey v ≠ termKey w := by
      have := (List.mem_filter.mp hv).2
      simpa using this
    exact hne (by simpa [termKey] using hkey)
  · exact keysNodup_filter _ _ hm

theorem recordIncorrect_keysNodup (missed : List WordItem) (w : WordItem)
    (hm : keysNodup missed) : keysNodup (recordIncorrect missed w) := by
  rw [recordIncorrect]
  split
  · exact hm
  · next hany =>
    have habs : termKey w ∉ missed.map termKey := by
      intro hmem
      obtain ⟨v, hv, hkey⟩ := List.mem_map.mp hmem
      exact hany (List.any_eq_true.mpr ⟨v, hv, by simpa using hkey⟩)
    simpa [keysNodup, List.nodup_append, habs] using hm

theorem recordCorrect_missed_gone (history missed : List WordItem) (w : WordItem) (now : Int) :
    ((recordCorrect history missed w now).2.any fun v => termKey v = termKey w) = false := by
  rw [List.any_eq_false]
  intro v hv
  have := (List.mem_filter.mp hv).2
  simpa using this

theorem recordCorrect_count_one (history missed : List WordItem) (w : WordItem) (now : Int) :
    (recordCorrect history missed w now).1.countP (fun v => termKey v = termKey w) = 1 := by
  have hz : ((history.filter (fun v => termKey v ≠ termKey w)).take 499).countP
      (fun v => termKey v = termKey w) = 0 := by
    rw [List.countP_eq_zero]
    intro v hv
    have := (List.mem_filter.mp (List.take_subset _ _ hv)).2
    simpa using this
  rw [recordCorrect]
  simp only [List.take_succ_cons, List.countP_cons]
  rw [hz]
  simp [termKey]

/-!
## C4: session-start deduplication keeps exactly the first occurrence of
each case-folded term, in input order
-/

/-- C4.  For every input sequence of `WordItem`s the deduplication performed
when a session starts (`startLearningDedup`, the head of `startLearning`)
yields (i) pairwise distinct case-folded terms, (ii) at least one survivor
for every input term, (iii) only survivors that are the first occurrence of
their case-folded term in input order, and (iv) a subsequence of the input,
so the relative order of the surviving entries is the input order. -/
theorem startLearningDedup_first_wins (words : List WordItem) :
    ((startLearningDedup words).map termKey).Nodup
    ∧ (∀ u ∈ words, ∃ v ∈ startLearningDedup words, termKey v = termKey u)
    ∧ (∀ v ∈ startLearningDedup words, words.find? (fun u => termKey u = termKey v) = some v)
    ∧ List.Sublist (startLearningDedup words) words := by
  rw [startLearningDedup_eq]
  exact ⟨dedupKeepFirst_keys_nodup words, dedupKeepFirst_covers words,
    dedupKeepFirst_first_occurrence words, dedupKeepFirst_sublist words⟩

/-- C4 witness: on the input `[apple, Apple, banana]` (the spec scenario),
the first "apple" has a surviving representative with its case-folded term. -/
theorem startLearningDedup_first_wins_witness :
    ∃ v ∈ startLearningDedup [appleW, appleW2, bananaW], termKey v = termKey appleW :=
  (startLearningDedup_first_wins [appleW, appleW2, bananaW]).2.1 appleW
    (List.mem_cons_self _ _)

/-!
## C5: the session-start dedup does not assign ids or reset masteryLevel
-/

/-- C5 counterexample: the dedup performed at session start keeps surviving
items verbatim; feeding it a word with `masteryLevel = 2` (and a
pre-existing id) yields an output item with `masteryLevel = 2 ≠ 0` and the
same old id, refuting "every item in the deduplicated output carries a
newly assigned id and masteryLevel = 0". -/
theorem startLearningDedup_no_fresh_fields_counterexample :
    startLearningDedup [masteryWord] = [masteryWord]
    ∧ masteryWord.masteryLevel = 2
    ∧ masteryWord.id = "m1"
    ∧ ¬(∀ v ∈ startLearningDedup [masteryWord], v.masteryLevel = 0) := by
  refine ⟨by decide, rfl, rfl, ?_⟩
  intro h
  have := h masteryWord (by decide)
  simp [masteryWord] at this

/-- C5 amended: every surviving item of the session-start deduplication is
one of the input items, kept verbatim (its `id` and `masteryLevel` are the
ones assigned earlier, at ingestion), namely the first input occurrence of
its case-folded term.  Fresh ids and `masteryLevel = 0` are assigned by the
file parsers when the words are first created, not by this dedup. -/
theorem startLearningDedup_preserves_items (words : List WordItem) :
    ∀ v ∈ startLearningDedup words,
      v ∈ words ∧ words.find? (fun u => termKey u = termKey v) = some v := by
  intro v hv
  rw [startLearningDedup_eq] at hv
  exact ⟨(dedupKeepFirst_sublist words).subset hv,
    dedupKeepFirst_first_occurrence words v hv⟩

/-- C5 amended witness: applied to the singleton input `[masteryWord]`. -/
theorem startLearningDedup_preserves_items_witness :
    masteryWord ∈ ([masteryWord] : List WordItem)
    ∧ [masteryWord].find? (fun u => termKey u = termKey masteryWord) = some masteryWord :=
  startLearningDedup_preserves_items [masteryWord] masteryWord (by decide)

theorem recordIncorrect_has_key (missed : List WordItem) (w : WordItem) :
    ((recordIncorrect missed w).any fun v => termKey v = termKey w) = true := by
  rw [recordIncorrect]
  split
  · next h => exact h
  · simp

/-!
## C1: how terms enter and leave MissedSet
-/

/-- C1 counterexample: a quiz session whose MissedSet holds "apple" and
whose current question is about "Apple"; a correct quiz answer leaves the
term in MissedSet, refuting "after a correct answer for a term (case-folded
match) in any session type, that term is absent from MissedSet". -/
theorem quizCorrect_keeps_missed_counterexample :
    c1State.isProcessing = false
    ∧ c1State.quizQuestions.get? c1State.currentQuizIndex = some appleQuestion
    ∧ jsToLower appleQuestion.word = termKey appleW
    ∧ ((handleQuizAnswer c1State true).missedWords.any
        fun v => termKey v = termKey appleW) = true
    ∧ appleW ∈ (handleQuizAnswer c1State true).missedWords := by decide

/-- C1 amended: a term enters MissedSet on any "not remembered" event if
not already present (always in a learning session; in a quiz session
whenever the term resolves in History), and leaves MissedSet the moment it
is answered correctly in a learning session; a correct quiz answer does not
modify MissedSet at all. -/
theorem missedSet_enter_leave (missed history : List WordItem) (w : WordItem) (now : Int) :
    ((recordIncorrect missed w).any fun v => termKey v = termKey w) = true
    ∧ ((recordCorrect history missed w now).2.any fun v => termKey v = termKey w) = false
    ∧ (∀ s : AppState, (handleQuizAnswer s true).missedWords = s.missedWords)
    ∧ (∀ s : AppState, s.isProcessing = false →
        s.wordList.get? s.currentWordIndex = some w →
        ((learningAnswer s true now).missedWords.any fun v => termKey v = termKey w) = false)
    ∧ (∀ s : AppState, s.isProcessing = false →
        s.wordList.get? s.currentWordIndex = some w →
        ((learningAnswer s false now).missedWords.any fun v => termKey v = termKey w) = true)
    ∧ (∀ (s : AppState) (q : QuizQuestion), s.isProcessing = false →
        s.quizQuestions.get? s.currentQuizIndex = some q →
        s.historyWords.find? (fun u => termKey u = jsToLower q.word) = some w →
        ((handleQuizAnswer s false).missedWords.any fun v => termKey v = termKey w) = true) := by
  refine ⟨recordIncorrect_has_key missed w,
    recordCorrect_missed_gone history missed w now, ?_, ?_, ?_, ?_⟩
  · intro s
    rw [handleQuizAnswer]
    split
    · rfl
    · split
      · rfl
      · simp only [eq_self_iff_true, if_true]
        split <;> rfl
  · intro s hproc hget
    simp only [learningAnswer, hproc, Bool.false_eq_true, if_false,
      applyCardResult, hget]
    split <;> exact recordCorrect_missed_gone s.historyWords s.missedWords w now
  · intro s hproc hget
    simp only [learningAnswer, hproc, Bool.false_eq_true, if_false,
      applyCardResult, hget]
    split <;> exact recordIncorrect_has_key s.missedWords w
  · intro s q hproc hq hfind
    simp only [handleQuizAnswer, hproc, Bool.false_eq_true, if_false, hq, hfind]
    split <;> exact recordIncorrect_has_key s.missedWords w

/-- C1 amended witness: the learning session `learnState` (current word
"apple", also in MissedSet) loses the term on a correct answer, and the
quiz session `c1State` gains nothing new but keeps "apple" on a correct
answer, gains it on a wrong one. -/
theorem missedSet_enter_leave_witness :
    ((learningAnswer learnState true 7).missedWords.any
      fun v => termKey v = termKey appleW) = false
    ∧ ((handleQuizAnswer c1State false).missedWords.any
      fun v => termKey v = termKey appleStamped) = true := by
  constructor
  · exact (missedSet_enter_leave [] [] appleW 7).2.2.2.1 learnState rfl rfl
  · exact (missedSet_enter_leave [] [] appleStamped 7).2.2.2.2.2 c1State appleQuestion
      rfl rfl (by decide)

/-!
## C2: recording a correct answer in a learning session
-/

/-- C2.  `recordCorrect` (the success branch of `handleCardResult`) prepends
`w` stamped with `lastMemorizedAt = now` to the prior History minus every
same-case-folded-term entry, truncated to at most 500 entries, and removes
the term from MissedSet while keeping every other entry; and the sequence
recordCorrect, recordIncorrect, recordCorrect leaves the term absent from
MissedSet and present exactly once in History. -/
theorem recordCorrect_spec (history missed : List WordItem) (w : WordItem) (now : Int) :
    (recordCorrect history missed w now).1.head? = some { w with lastMemorizedAt := some now }
    ∧ (recordCorrect history missed w now).1.tail
        = (history.filter (fun v => termKey v ≠ termKey w)).take 499
    ∧ (recordCorrect history missed w now).1.length ≤ 500
    ∧ ((recordCorrect history missed w now).2.any fun v => termKey v = termKey w) = false
    ∧ (∀ v ∈ missed, termKey v ≠ termKey w → v ∈ (recordCorrect history missed w now).2)
    ∧ ((recordCorrect (recordCorrect history missed w now).1
          (recordIncorrect (recordCorrect history missed w now).2 w) w now).2.any
            fun v => termKey v = termKey w) = false
    ∧ (recordCorrect (recordCorrect history missed w now).1
          (recordIncorrect (recordCorrect history missed w now).2 w) w now).1.countP
            (fun v => termKey v = termKey w) = 1 := by
  refine ⟨?_, ?_, ?_, recordCorrect_missed_gone history missed w now, ?_,
    recordCorrect_missed_gone _ _ w now, recordCorrect_count_one _ _ w now⟩
  · simp [recordCorrect, List.take_succ_cons]
  · simp [recordCorrect, List.take_succ_cons]
  · exact List.length_take_le 500 _
  · intro v hv hne
    simp only [recordCorrect]
    exact List.mem_filter.mpr ⟨hv, by simpa using hne⟩

/-- C2 witness: with `History = []`, `MissedSet = [appleW]` and the word
`bananaW`, the other missed entry survives `recordCorrect`. -/
theorem recordCorrect_spec_witness :
    appleW ∈ (recordCorrect [] [appleW] bananaW 5).2 :=
  (recordCorrect_spec [] [appleW] bananaW 5).2.2.2.2.1 appleW
    (List.mem_cons_self _ _) (by decide)

/-!
## C7: answers arriving while isProcessing are dropped
-/

/-- C7.  In a learning session the two answer buttons of `Flashcard.tsx`
carry `disabled = isProcessing`, and `handleQuizAnswer` starts with
`if (isProcessing) return`: in both session types an answer event arriving
while `isProcessing` is true leaves the whole state unchanged — stats,
History, MissedSet and the current index included — so at most one answer
is in flight per session. -/
theorem answer_dropped_while_processing (s : AppState) (success : Bool) (now : Int)
    (h : s.isProcessing = true) :
    learningAnswer s success now = s ∧ handleQuizAnswer s success = s := by
  constructor
  · rw [learningAnswer, if_pos h]
  · rw [handleQuizAnswer, if_pos h]

/-- C7 witness: a concrete state holding the latch. -/
theorem answer_dropped_while_processing_witness :
    learningAnswer procState true 0 = procState
    ∧ handleQuizAnswer procState true = procState :=
  answer_dropped_while_processing procState true 0 rfl

/-!
## C6: no two items of a collection share a case-folded term
-/

/-- C6.  If History, MissedSet and the active word list each contain
pairwise distinct case-folded terms, then the same holds after starting a
learning session, after a learning answer (correct or not), and after a
quiz answer (correct or not); starting a session moreover establishes the
invariant for the word list from any input. -/
theorem collections_keys_unique (s : AppState) (hs : goodState s) :
    (∀ (words : List WordItem) (now : Int), goodState (startLearning s words now))
    ∧ (∀ (success : Bool) (now : Int), goodState (learningAnswer s success now))
    ∧ (∀ isCorrect : Bool, goodState (handleQuizAnswer s isCorrect)) := by
  refine ⟨?_, ?_, ?_⟩
  · intro words now
    refine ⟨hs.1, hs.2.1, ?_⟩
    show ((startLearningDedup words).map termKey).Nodup
    rw [startLearningDedup_eq]
    exact dedupKeepFirst_keys_nodup words
  · intro success now
    rw [learningAnswer]
    split
    · exact hs
    · rw [applyCardResult]
      split
      · exact hs
      · next w heq =>
        have hrec := recordCorrect_keysNodup s.historyWords s.missedWords w now hs.1 hs.2.1
        have hinc := recordIncorrect_keysNodup s.missedWords w hs.2.1
        split <;> split <;>
          first
            | exact ⟨hrec.1, hrec.2, hs.2.2⟩
            | exact ⟨hs.1, hinc, hs.2.2⟩
  · intro isCorrect
    rw [handleQuizAnswer]
    split
    · exact hs
    · split
      · exact hs
      · next q heq =>
        cases hfind : s.historyWords.find? (fun w => termKey w = jsToLower q.word) with
        | none => split <;> split <;> exact ⟨hs.1, hs.2.1, hs.2.2⟩
        | some ow =>
          split <;> split <;>
            first
              | exact ⟨hs.1, hs.2.1, hs.2.2⟩
              | exact ⟨hs.1, recordIncorrect_keysNodup s.missedWords ow hs.2.1, hs.2.2⟩

/-- C6 witness: from the empty state, a session started on the
apple/Apple/banana input satisfies the invariant. -/
theorem collections_keys_unique_witness :
    goodState (startLearning initialState [appleW, appleW2, bananaW] 3) :=
  (collections_keys_unique initialState (by decide)).1 [appleW, appleW2, bananaW] 3

theorem take_append_take {α : Type} (n : Nat) (A B : List α) :
    (A ++ B.take n).take n = (A ++ B).take n := by
  rw [List.take_append_eq_append_take, List.take_append_eq_append_take, List.take_take]
  congr 1
  rw [Nat.min_eq_left (Nat.sub_le n A.length)]

theorem foldl_save_fresh :
    ∀ (sets : List StudySet) (lib : List StudySet),
      lib.length ≤ 20 →
      ((sets.map StudySet.name).Nodup) →
      (∀ s ∈ sets, ∀ t ∈ lib, t.name ≠ s.name) →
      sets.foldl saveToLibrary lib = (sets.reverse ++ lib).take 20 := by
  intro sets
  induction sets with
  | nil =>
    intro lib hlen _ _
    simpa using (List.take_of_length_le hlen).symm
  | cons st rest ih =>
    intro lib hlen hnodup hfresh
    have hstep : saveToLibrary lib st = (st :: lib).take 20 := by
      rw [saveToLibrary]
      have hid : lib.filter (fun item => item.name ≠ st.name) = lib :=
        List.filter_eq_self.mpr (fun t ht => by
          simpa using hfresh st (List.mem_cons_self _ _) t ht)
      rw [hid]
    have hlen' : (saveToLibrary lib st).length ≤ 20 := by
      rw [hstep]
      exact List.length_take_le _ _
    rw [List.map_cons, List.nodup_cons] at hnodup
    have hfresh' : ∀ s ∈ rest, ∀ t ∈ saveToLibrary lib st, t.name ≠ s.name := by
      intro s hsr t ht
      rw [hstep] at ht
      have ht' := List.take_subset _ _ ht
      rcases List.mem_cons.mp ht' with rfl | htl
      · intro hcon
        have hmem := List.mem_map_of_mem StudySet.name hsr
        rw [← hcon] at hmem
        exact hnodup.1 hmem
      · exact hfresh s (List.mem_cons_of_mem _ hsr) t htl
    calc (st :: rest).foldl saveToLibrary lib
        = rest.foldl saveToLibrary (saveToLibrary lib st) := rfl
      _ = (rest.reverse ++ saveToLibrary lib st).take 20 := ih _ hlen' hnodup.2 hfresh'
      _ = (rest.reverse ++ (st :: lib).take 20).take 20 := by rw [hstep]
      _ = (rest.reverse ++ (st :: lib)).take 20 := take_append_take 20 _ _
      _ = ((st :: rest).reverse ++ lib).take 20 := by
          rw [List.reverse_cons, List.append_assoc, List.singleton_append]

/-!
## C3: saving into the bounded library
-/

/-- C3.  `saveToLibrary` puts the new set first, leaves exactly one entry
with its name, and keeps at most 20 entries; and 21 successive saves of
sets with pairwise distinct names, starting from the empty library, leave
exactly 20 entries with the first-saved name evicted. -/
theorem saveToLibrary_spec :
    (∀ (lib : List StudySet) (st : StudySet),
        (saveToLibrary lib st).head? = some st
        ∧ (saveToLibrary lib st).filter (fun t => t.name = st.name) = [st]
        ∧ (saveToLibrary lib st).length ≤ 20)
    ∧ (∀ (sets : List StudySet) (s0 : StudySet) (rest : List StudySet),
        sets = s0 :: rest → sets.length = 21 → ((sets.map StudySet.name).Nodup) →
        (sets.foldl saveToLibrary []).length = 20
        ∧ s0.name ∉ (sets.foldl saveToLibrary []).map StudySet.name) := by
  constructor
  · intro lib st
    refine ⟨?_, ?_, List.length_take_le _ _⟩
    · simp [saveToLibrary, List.take_succ_cons]
    · rw [saveToLibrary]
      simp only [List.take_succ_cons]
      rw [List.filter_cons_of_pos (by simp)]
      have hnil : ((lib.filter (fun item => item.name ≠ st.name)).take 19).filter
          (fun t => t.name = st.name) = [] := by
        rw [List.filter_eq_nil_iff]
        intro t ht
        have := (List.mem_filter.mp (List.take_subset _ _ ht)).2
        simpa using this
      rw [hnil]
  · intro sets s0 rest hcons hlen hnodup
    subst hcons
    have hrlen : rest.length = 20 := by simpa using hlen
    have hfold : (s0 :: rest).foldl saveToLibrary [] = ((s0 :: rest).reverse ++ []).take 20 :=
      foldl_save_fresh _ [] (by simp) hnodup (by simp)
    have hred : ((s0 :: rest).reverse ++ []).take 20 = rest.reverse := by
      rw [List.append_nil, List.reverse_cons]
      have h20 : rest.reverse.length = 20 := by simpa using hrlen
      rw [← h20, List.take_left]
    rw [hfold, hred]
    constructor
    · simpa using hrlen
    · rw [List.map_cons, List.nodup_cons] at hnodup
      simpa [List.map_reverse, List.mem_reverse] using hnodup.1

/-- C3 witness: 21 concrete saves with the distinct names n01..n21. -/
theorem saveToLibrary_spec_witness :
    (sets21.foldl saveToLibrary []).length = 20
    ∧ (namedSet "n01").name ∉ (sets21.foldl saveToLibrary []).map StudySet.name :=
  saveToLibrary_spec.2 sets21 (namedSet "n01")
    [ namedSet "n02", namedSet "n03", namedSet "n04", namedSet "n05",
      namedSet "n06", namedSet "n07", namedSet "n08", namedSet "n09", namedSet "n10",
      namedSet "n11", namedSet "n12", namedSet "n13", namedSet "n14", namedSet "n15",
      namedSet "n16", namedSet "n17", namedSet "n18", namedSet "n19", namedSet "n20",
      namedSet "n21" ] rfl rfl (by decide)

theorem oneWeekAgo_lt (now : Int) : now - oneWeekMs < now := by
  simp only [oneWeekMs]
  omega

/-!
## C8: weekly-test eligibility gate
-/

/-- C8.  `isEligible` holds exactly when at least 3 History entries fall in
the trailing 7-day window; it is false for 2 items stamped `now` and true
for 3; and when it is false, `startWeeklyTest` returns without producing a
quiz-generation request (no `generateQuiz` call) and without touching the
session state. -/
theorem weekly_test_gate :
    (∀ (now : Int) (history : List WordItem),
        isEligible now history = true ↔ 3 ≤ (recentWords now history).length)
    ∧ (∀ (s : AppState) (now : Int) (shuffled : List WordItem)
          (response : List QuizQuestion),
        isEligible now s.historyWords = false →
        startWeeklyTest s now shuffled response = (s, none))
    ∧ (∀ now : Int, isEligible now (twoRecent now) = false)
    ∧ (∀ now : Int, isEligible now (threeRecent now) = true) := by
  refine ⟨?_, ?_, ?_, ?_⟩
  · intro now history
    simp [isEligible]
  · intro s now shuffled response h
    have hnotle : ¬ 3 ≤ (recentWords now s.historyWords).length := by
      simpa [isEligible] using h
    have hlt : (recentWords now s.historyWords).length < 3 := by omega
    simp only [startWeeklyTest]
    rw [if_pos hlt]
  · intro now
    have h := oneWeekAgo_lt now
    simp [isEligible, recentWords, twoRecent, stampNow, mkWord, h]
  · intro now
    have h := oneWeekAgo_lt now
    simp [isEligible, recentWords, threeRecent, twoRecent, stampNow, mkWord, h]

/-- C8 witness: the empty history is ineligible and the gate returns the
state untouched with no quiz request. -/
theorem weekly_test_gate_witness :
    startWeeklyTest initialState 0 [] [] = (initialState, none) :=
  weekly_test_gate.2.1 initialState 0 [] [] (by decide)

/-!
## C9: quiz sampling
-/

/-- C9.  `startWeeklyTest` shuffles `recentWords` with a random-comparator
sort and takes the first 10 (`sampleForQuiz`).  For every permutation the
shuffle may produce, the sample has length `min 10 count`; and when exactly
3 History items fall in the 7-day window the sample contains every one of
them exactly once (all element counts are preserved — no duplicates, no
omissions). -/
theorem sampleForQuiz_spec (now : Int) (history : List WordItem) (shuffled : List WordItem)
    (hperm : shuffled.Perm (recentWords now history)) :
    (sampleForQuiz shuffled).length = min 10 (recentWords now history).length
    ∧ ((recentWords now history).length = 3 →
        ∀ w : WordItem, (sampleForQuiz shuffled).count w = (recentWords now history).count w) := by
  constructor
  · rw [sampleForQuiz, List.length_take, hperm.length_eq]
  · intro h3 w
    have hlen : shuffled.length = 3 := by rw [hperm.length_eq, h3]
    have hall : sampleForQuiz shuffled = shuffled := by
      rw [sampleForQuiz]
      exact List.take_of_length_le (by omega)
    rw [hall]
    exact hperm.count_eq w

/-- C9 witness: three recent items, shuffled by reversal; the sample keeps
the length and the count of each item. -/
theorem sampleForQuiz_spec_witness :
    (sampleForQuiz ((threeRecent 0).reverse)).length
        = min 10 (recentWords 0 (threeRecent 0)).length
    ∧ (sampleForQuiz ((threeRecent 0).reverse)).count (stampNow (mkWord "r3" "gamma") 0)
        = (recentWords 0 (threeRecent 0)).count (stampNow (mkWord "r3" "gamma") 0) :=
  ⟨(sampleForQuiz_spec 0 (threeRecent 0) ((threeRecent 0).reverse) (by decide)).1,
   (sampleForQuiz_spec 0 (threeRecent 0) ((threeRecent 0).reverse) (by decide)).2
      (by decide) (stampNow (mkWord "r3" "gamma") 0)⟩

/-!
## C10: demo activation overwrites History
-/

/-- C10.  Activating the built-in demo replaces the whole persisted History
with exactly the first four demo words, each stamped
`lastMemorizedAt = now`, discarding whatever History held before (the
result does not depend on the prior state), and `isEligible` is true
immediately afterwards. -/
theorem startDemoLearning_spec (s : AppState) (now : Int) :
    (startDemoLearning s now).historyWords =
      [ { id := "1", term := "Environment", masteryLevel := 0, lastMemorizedAt := some now },
        { id := "2", term := "Challenge", masteryLevel := 0, lastMemorizedAt := some now },
        { id := "3", term := "Technology", masteryLevel := 0, lastMemorizedAt := some now },
        { id := "4", term := "Experience", masteryLevel := 0, lastMemorizedAt := some now } ]
    ∧ isEligible now (startDemoLearning s now).historyWords = true := by
  have hh : (startDemoLearning s now).historyWords =
      [ { id := "1", term := "Environment", masteryLevel := 0, lastMemorizedAt := some now },
        { id := "2", term := "Challenge", masteryLevel := 0, lastMemorizedAt := some now },
        { id := "3", term := "Technology", masteryLevel := 0, lastMemorizedAt := some now },
        { id := "4", term := "Experience", masteryLevel := 0, lastMemorizedAt := some now } ] := rfl
  refine ⟨hh, ?_⟩
  rw [hh]
  have h := oneWeekAgo_lt now
  simp [isEligible, recentWords, h]

end VocabBoost
